import Mathlib

/-!
Verification of the spiceware diceware passphrase generator
(`src/main.rs`) against its natural-language specification.

Strings from the Rust source are modelled as lists of characters
(`Str`); the process-wide random byte source
(`rand::thread_rng().sample_iter(Standard)` over `u8`) is modelled as a
stream `r : Nat → Nat`, reduced modulo 256 at each use; the word list
`WORDS` (defined in `words.rs`, outside the verified file) is a
parameter `words : List Str`.

The `main` function's floating-point values — `power_of_ten` (computed
with `f64::powf` and `f64::log10`) and the two rendered `Time` display
strings — are outside the embedding and enter `main_output` as the
parameters `k`, `t1` and `t2`.
-/

namespace Spiceware

/-- Rust `&str` values are modelled as lists of characters. -/
abbrev Str := List Char

/-- The per-byte die mapping from `roll_dice`: `|i: u8| i % 6 + 1`. -/
def byteToDie (b : Nat) : Nat := b % 6 + 1

/-- `roll_dice(n)`: draw `n` random bytes and map each through
`i % 6 + 1`.  The byte source is the stream `r`, truncated to `u8`. -/
def roll_dice (r : Nat → Nat) (n : Nat) : List Nat :=
  (List.range n).map fun i => byteToDie (r i % 256)

/-- `to_index`: reverse the key, enumerate, and sum `(n - 1) * 6^pow`. -/
def to_index (key : List Nat) : Nat :=
  (key.reverse.enum.map fun p => (p.2 - 1) * 6 ^ p.1).sum

/-- `get_word` as a fallible lookup: `WORDS[index]` panics when the
index is out of bounds, modelled by `Option`. -/
def get_word? (words : List Str) (r : Nat → Nat) : Option Str :=
  words.get? (to_index (roll_dice r 5))

/-- Total version of `get_word` used by `gen_passphrase`; out-of-bounds
lookups (which never occur when the list has 7776 entries) default to
the empty word. -/
def get_word (words : List Str) (r : Nat → Nat) : Str :=
  (get_word? words r).getD []

/-- Rust's `Vec<&str>::join`: interpose `sep` between the entries. -/
def joinWith (sep : Str) : List Str → Str
  | [] => []
  | [w] => w
  | w :: ws => w ++ sep ++ joinWith sep ws

/-- `gen_passphrase(n)`: draw `n` words and join them with `" "`.
The `k`-th call of `get_word` consumes bytes `5*k .. 5*k+4` of the
stream. -/
def gen_passphrase (words : List Str) (r : Nat → Nat) (n : Nat) : Str :=
  joinWith [' '] ((List.range n).map fun k => get_word words (fun i => r (5 * k + i)))

/-- Rust's `str::split(char)`: split at every occurrence of `c`; the
result always has one more part than there are occurrences of `c`. -/
def splitOnChar (c : Char) : List Char → List (List Char)
  | [] => [[]]
  | x :: xs =>
    if x = c then [] :: splitOnChar c xs
    else
      match splitOnChar c xs with
      | [] => [[x]]
      | y :: ys => (x :: y) :: ys

/-- The maximum word length in a word list. -/
def maxWordLen (words : List Str) : Nat :=
  words.foldr (fun w m => max w.length m) 0

/-- The command-line configuration of `main` (the `Arguments` struct):
`num_words` (`-w`, default 4), `num_passwords` (`-n`, default 1) and
`quiet` (`-q`). -/
structure Arguments where
  num_words : Nat
  num_passwords : Nat
  quiet : Bool

/-- The character for a decimal digit, as in Rust's integer
formatting (`'0'` has code 48). -/
def digitChar (d : Nat) : Char := Char.ofNat (48 + d % 10)

/-- Fuel-driven base-10 rendering of a natural number, most
significant digit first. -/
def natStrAux : Nat → Nat → Str
  | 0, _ => []
  | fuel + 1, n =>
    if n < 10 then [digitChar n]
    else natStrAux fuel (n / 10) ++ [digitChar (n % 10)]

/-- Base-10 rendering of a natural number, as produced by Rust's
`Display` for unsigned integers (`{}` in `println!`). -/
def natStr (n : Nat) : Str := natStrAux (n + 1) n

/-- The combinations line printed by `main` in verbose mode:
`"This password is one of 10^{} possible combinations."` with
`power_of_ten` substituted. -/
def combinations_line (k : Nat) : Str :=
  "This password is one of 10^".toList ++ natStr k ++
    " possible combinations.".toList

/-- The nine lines `main` prints in verbose mode (count ≤ 1, not
quiet).  `pw` is the generated passphrase, `k` the `power_of_ten`
value cast to `u64`, and `t1`, `t2` the two rendered `Time` display
strings; `k`, `t1` and `t2` come from `f64` computations outside the
embedding. -/
def verbose_block (pw : Str) (k : Nat) (t1 t2 : Str) : List Str :=
  ["Your password is:".toList,
   [],
   '\t' :: pw,
   [],
   combinations_line k,
   [],
   "Assuming 1,000,000 guesses per second, the average time it takes to guess your password is:".toList,
   '\t' :: (t1 ++ " if the attacker knows the scheme used to generate your password".toList),
   '\t' :: (t2 ++ " if the attacker does not know the scheme".toList)]

/-- The lines `main` prints, in order.  When `num_passwords > 1` the
batch loop prints one passphrase per line and returns (the `j`-th
iteration consumes the next `5 * num_words` bytes of the stream);
otherwise one passphrase is generated, and either printed alone
(quiet) or inside the verbose block. -/
def main_output (args : Arguments) (words : List Str) (r : Nat → Nat)
    (k : Nat) (t1 t2 : Str) : List Str :=
  if args.num_passwords > 1 then
    (List.range args.num_passwords).map fun j =>
      gen_passphrase words (fun i => r (5 * args.num_words * j + i)) args.num_words
  else if args.quiet then [gen_passphrase words r args.num_words]
  else verbose_block (gen_passphrase words r args.num_words) k t1 t2

/-- A stand-in for the 7776-entry word list of `words.rs`. -/
def exampleWords : List Str := List.replicate 7776 ['a']

/-- A byte stream seen by one run, as a function of draw position. -/
def byteSeqFun (f : Fin 5 → Fin 256) : Nat → Nat :=
  fun i => if h : i < 5 then (f ⟨i, h⟩).val else 0

/-- The number of raw 5-byte sequences (out of `256^5`) that
`roll_dice` followed by `to_index` sends to the index `idx`. -/
def numPreimages (idx : Nat) : Nat :=
  Fintype.card {f : Fin 5 → Fin 256 // to_index (roll_dice (byteSeqFun f) 5) = idx}

example : to_index [1, 1, 1, 1, 1] = 0 := by decide
example : to_index [1, 2, 3, 4, 5] = 310 := by decide
example : to_index [6, 6, 6, 6, 6] = 7775 := by decide
example : to_index [6, 5, 4, 3, 2] = 7465 := by decide
example : splitOnChar ' ' "ab cd".toList = ["ab".toList, "cd".toList] := by decide
example : gen_passphrase [['a'], ['b']] (fun _ => 0) 2 = ['a', ' ', 'a'] := by decide
example : natStr 1234 = "1234".toList := by decide

/-- Every die produced by `roll_dice` lies in `[1, 6]`. -/
theorem roll_dice_entry_bounds (r : Nat → Nat) (n : Nat) :
    ∀ d ∈ roll_dice r n, 1 ≤ d ∧ d ≤ 6 := by
  intro d hd
  simp only [roll_dice, List.mem_map, List.mem_range] at hd
  obtain ⟨i, _, rfl⟩ := hd
  unfold byteToDie
  omega

/-- `to_index` of a 5-dice roll evaluates to the base-6 expansion of the
five die residues. -/
theorem to_index_roll_dice (r : Nat → Nat) :
    to_index (roll_dice r 5) =
      (r 4 % 256 % 6) + 6 * (r 3 % 256 % 6) + 36 * (r 2 % 256 % 6) +
        216 * (r 1 % 256 % 6) + 1296 * (r 0 % 256 % 6) := by
  show to_index (((List.range 5).map fun i => byteToDie (r i % 256))) = _
  simp only [List.range_succ, List.range_zero, List.map_append, List.map_cons,
    List.map_nil, List.nil_append, List.cons_append, to_index, List.reverse_cons,
    List.reverse_nil, List.enum, List.enumFrom, byteToDie, List.sum_cons,
    List.sum_nil]
  omega

/-- The index of a 5-dice roll is always below 7776. -/
theorem to_index_roll_dice_lt (r : Nat → Nat) : to_index (roll_dice r 5) < 7776 := by
  rw [to_index_roll_dice]
  omega

/-- C1: Every index used for a word lookup is in range: each die from
`roll_dice` is in `[1, 6]`, `to_index` of a 5-dice roll is in
`[0, 7776)`, and when the word list has 7776 entries the lookup in
`get_word` succeeds. -/
theorem C1_lookup_in_range (words : List Str) (r : Nat → Nat) (n : Nat)
    (h : words.length = 7776) :
    (∀ d ∈ roll_dice r n, 1 ≤ d ∧ d ≤ 6) ∧
    to_index (roll_dice r 5) < 7776 ∧
    (get_word? words r).isSome := by
  refine ⟨roll_dice_entry_bounds r n, to_index_roll_dice_lt r, ?_⟩
  have hlt : to_index (roll_dice r 5) < words.length := by
    rw [h]; exact to_index_roll_dice_lt r
  simp [get_word?, List.get?_eq_getElem?, hlt]

/-- Witness for C1 at a concrete word list of 7776 entries and the
all-zero byte stream. -/
theorem C1_lookup_in_range_witness :
    (∀ d ∈ roll_dice (fun _ => 0) 5, 1 ≤ d ∧ d ≤ 6) ∧
    to_index (roll_dice (fun _ => 0) 5) < 7776 ∧
    (get_word? (List.replicate 7776 ([] : Str)) (fun _ => 0)).isSome :=
  C1_lookup_in_range (List.replicate 7776 ([] : Str)) (fun _ => 0) 5
    (List.length_replicate 7776 [])

/-- Splitting a word that does not contain the separator yields just
that word. -/
theorem splitOnChar_of_not_mem (c : Char) (w : List Char) (h : c ∉ w) :
    splitOnChar c w = [w] := by
  induction w with
  | nil => rfl
  | cons x xs ih =>
    have hx : x ≠ c := fun he => h (he ▸ List.mem_cons_self x xs)
    have hxs : c ∉ xs := fun hm => h (List.mem_cons_of_mem x hm)
    rw [splitOnChar, if_neg hx, ih hxs]

/-- Splitting `w ++ c :: t` with `c` absent from `w` peels off `w`. -/
theorem splitOnChar_append_cons (c : Char) (w t : List Char) (h : c ∉ w) :
    splitOnChar c (w ++ c :: t) = w :: splitOnChar c t := by
  induction w with
  | nil => rw [List.nil_append, splitOnChar, if_pos rfl]
  | cons x xs ih =>
    have hx : x ≠ c := fun he => h (he ▸ List.mem_cons_self x xs)
    have hxs : c ∉ xs := fun hm => h (List.mem_cons_of_mem x hm)
    rw [List.cons_append, splitOnChar, if_neg hx, ih hxs]

/-- Splitting the join of a nonempty list of separator-free words
recovers the words. -/
theorem splitOnChar_joinWith (c : Char) (t : List Str) (w : Str)
    (h : ∀ u ∈ w :: t, c ∉ u) :
    splitOnChar c (joinWith [c] (w :: t)) = w :: t := by
  induction t generalizing w with
  | nil => exact splitOnChar_of_not_mem c w (h w (List.mem_cons_self w []))
  | cons x xs ih =>
    have hw : c ∉ w := h w (List.mem_cons_self _ _)
    have h' : ∀ u ∈ x :: xs, c ∉ u := fun u hu => h u (List.mem_cons_of_mem w hu)
    rw [joinWith, List.append_assoc, List.singleton_append,
      splitOnChar_append_cons c w _ hw, ih x h']
    exact fun he => List.noConfusion he

/-- `get_word` returns the empty default or a member of the list. -/
theorem get_word_eq_or_mem (words : List Str) (r : Nat → Nat) :
    get_word words r = [] ∨ get_word words r ∈ words := by
  unfold get_word get_word?
  cases hg : words.get? (to_index (roll_dice r 5)) with
  | none => exact Or.inl rfl
  | some w => exact Or.inr (List.get?_mem hg)

/-- When no word of the list contains `c`, neither does any
`get_word` result. -/
theorem not_mem_get_word (words : List Str) (r : Nat → Nat) (c : Char)
    (h : ∀ w ∈ words, c ∉ w) : c ∉ get_word words r := by
  rcases get_word_eq_or_mem words r with he | hm
  · rw [he]; exact List.not_mem_nil c
  · exact h _ hm

/-- For `n ≥ 1`, the passphrase splits on the delimiter into exactly
the `n` drawn words, provided no word in the list contains a space. -/
theorem gen_passphrase_split (words : List Str) (r : Nat → Nat) (n : Nat)
    (h1 : 1 ≤ n) (hw : ∀ w ∈ words, ' ' ∉ w) :
    (splitOnChar ' ' (gen_passphrase words r n)).length = n := by
  unfold gen_passphrase
  obtain ⟨m, rfl⟩ : ∃ m, n = m + 1 := ⟨n - 1, by omega⟩
  cases hws : (List.range (m + 1)).map
      (fun k => get_word words fun i => r (5 * k + i)) with
  | nil => simpa using congrArg List.length hws
  | cons w t =>
    have hmem : ∀ u ∈ w :: t, ' ' ∉ u := by
      intro u hu
      rw [← hws] at hu
      obtain ⟨k, _, rfl⟩ := List.mem_map.mp hu
      exact not_mem_get_word words _ ' ' hw
    rw [splitOnChar_joinWith ' ' t w hmem, ← hws]
    simp

/-- C3: For `1 ≤ n ≤ 50` and any random draws, `gen_passphrase n`
splits on the space delimiter into exactly `n` words, provided no word
in the list contains a space. -/
theorem C3_split_length (words : List Str) (r : Nat → Nat) (n : Nat)
    (h1 : 1 ≤ n) (_h50 : n ≤ 50) (hw : ∀ w ∈ words, ' ' ∉ w) :
    (splitOnChar ' ' (gen_passphrase words r n)).length = n :=
  gen_passphrase_split words r n h1 hw

/-- Witness for C3 at `n = 2` with a two-word list and zero bytes. -/
theorem C3_split_length_witness :
    1 ≤ 2 ∧ 2 ≤ 50 ∧ (∀ w ∈ [['a'], ['b']], ' ' ∉ w) ∧
    (splitOnChar ' ' (gen_passphrase [['a'], ['b']] (fun _ => 0) 2)).length = 2 :=
  ⟨by decide, by decide, by decide,
    C3_split_length [['a'], ['b']] (fun _ => 0) 2 (by decide) (by decide)
      (by decide)⟩

/-- C7: `gen_passphrase 0` is the empty string, containing no
delimiter; a word count of 0 is handled, not rejected. -/
theorem C7_zero_word_count (words : List Str) (r : Nat → Nat) :
    gen_passphrase words r 0 = [] ∧ ' ' ∉ gen_passphrase words r 0 :=
  ⟨rfl, fun h => List.not_mem_nil ' ' h⟩

/-- Every member of the list is bounded by the maximum word length. -/
theorem length_le_maxWordLen (words : List Str) (w : Str) (h : w ∈ words) :
    w.length ≤ maxWordLen words := by
  induction words with
  | nil => cases h
  | cons x xs ih =>
    rcases List.mem_cons.mp h with rfl | h'
    · exact le_max_left _ _
    · exact le_trans (ih h') (le_max_right _ _)

/-- Any `get_word` result is bounded by the maximum word length. -/
theorem get_word_length_le (words : List Str) (r : Nat → Nat) :
    (get_word words r).length ≤ maxWordLen words := by
  rcases get_word_eq_or_mem words r with he | hm
  · rw [he]; exact Nat.zero_le _
  · exact length_le_maxWordLen words _ hm

/-- Length of a nonempty join: at most one maximal word per entry plus
one separator between consecutive entries. -/
theorem joinWith_length_le (sep : Str) (M : Nat) (t : List Str) (w : Str)
    (h : ∀ u ∈ w :: t, u.length ≤ M) :
    (joinWith sep (w :: t)).length ≤ (t.length + 1) * M + t.length * sep.length := by
  induction t generalizing w with
  | nil =>
    rw [joinWith]
    simpa using h w (List.mem_cons_self w [])
  | cons x xs ih =>
    have hw : w.length ≤ M := h w (List.mem_cons_self _ _)
    have ih' := ih x (fun u hu => h u (List.mem_cons_of_mem w hu))
    rw [joinWith]
    calc (w ++ sep ++ joinWith sep (x :: xs)).length
        = w.length + sep.length + (joinWith sep (x :: xs)).length := by
          simp [List.length_append, Nat.add_assoc]
      _ ≤ M + sep.length + ((xs.length + 1) * M + xs.length * sep.length) :=
          Nat.add_le_add (Nat.add_le_add_right hw _) ih'
      _ = ((x :: xs).length + 1) * M + (x :: xs).length * sep.length := by
          simp only [List.length_cons]; ring
    exact fun he => List.noConfusion he

/-- C8: For `n ≥ 1` and any draws, the passphrase length is at most
`n * maxWordLen + (n - 1) * 1`, the delimiter being the single
space. -/
theorem C8_length_bound (words : List Str) (r : Nat → Nat) (n : Nat)
    (h : 1 ≤ n) :
    (gen_passphrase words r n).length ≤
      n * maxWordLen words + (n - 1) * 1 := by
  unfold gen_passphrase
  obtain ⟨m, rfl⟩ : ∃ m, n = m + 1 := ⟨n - 1, by omega⟩
  cases hws : (List.range (m + 1)).map
      (fun k => get_word words fun i => r (5 * k + i)) with
  | nil => simpa using congrArg List.length hws
  | cons w t =>
    have ht : t.length = m := by
      have := congrArg List.length hws
      simpa using this.symm
    have hb := joinWith_length_le [' '] (maxWordLen words) t w ?_
    · simpa [ht] using hb
    · intro u hu
      rw [← hws] at hu
      obtain ⟨k, _, rfl⟩ := List.mem_map.mp hu
      exact get_word_length_le words _

/-- Witness for C8 at `n = 2` with a concrete word list. -/
theorem C8_length_bound_witness :
    1 ≤ 2 ∧
    (gen_passphrase [['a'], ['b']] (fun _ => 0) 2).length ≤
      2 * maxWordLen [['a'], ['b']] + (2 - 1) * 1 :=
  ⟨by decide, C8_length_bound [['a'], ['b']] (fun _ => 0) 2 (by decide)⟩

/-- `digitChar` only produces decimal digit characters. -/
theorem digitChar_mem_digits (d : Nat) : digitChar d ∈ "0123456789".toList := by
  have h : d % 10 = 0 ∨ d % 10 = 1 ∨ d % 10 = 2 ∨ d % 10 = 3 ∨ d % 10 = 4 ∨
      d % 10 = 5 ∨ d % 10 = 6 ∨ d % 10 = 7 ∨ d % 10 = 8 ∨ d % 10 = 9 := by omega
  unfold digitChar
  rcases h with h|h|h|h|h|h|h|h|h|h <;> rw [h] <;> decide

/-- The rendering of a natural number consists of digit characters. -/
theorem natStrAux_subset_digits (fuel n : Nat) :
    ∀ c ∈ natStrAux fuel n, c ∈ "0123456789".toList := by
  induction fuel generalizing n with
  | zero => intro c hc; cases hc
  | succ fuel ih =>
    rw [natStrAux]
    split
    · intro c hc
      rw [List.mem_singleton.mp hc]
      exact digitChar_mem_digits n
    · intro c hc
      rcases List.mem_append.mp hc with h | h
      · exact ih (n / 10) c h
      · rw [List.mem_singleton.mp h]
        exact digitChar_mem_digits (n % 10)

/-- The character `v` never occurs in the combinations line, whatever
the reported power of ten. -/
theorem v_not_mem_combinations_line (k : Nat) : 'v' ∉ combinations_line k := by
  intro hv
  rcases List.mem_append.mp hv with h | h
  · rcases List.mem_append.mp h with h' | h'
    · exact absurd h' (by decide)
    · have := natStrAux_subset_digits (k + 1) k 'v' h'
      exact absurd this (by decide)
  · exact absurd h (by decide)

/-- C4 (amended): no overflow detection exists; in verbose mode the
combination count is always reported as
`"This password is one of 10^{k} possible combinations."` for the
`f64`-computed power of ten `k`, and this line never carries an
`"over"` qualifier. -/
theorem C4_combinations_line_no_over (args : Arguments) (words : List Str)
    (r : Nat → Nat) (k : Nat) (t1 t2 : Str)
    (hq : args.quiet = false) (hn : args.num_passwords ≤ 1) :
    (main_output args words r k t1 t2).get? 4 = some (combinations_line k) ∧
    ¬ "over".toList <:+: combinations_line k := by
  have hb : ¬ args.num_passwords > 1 := by omega
  constructor
  · simp [main_output, hb, hq, verbose_block]
  · intro hinf
    exact v_not_mem_combinations_line k (hinf.subset (by decide))

/-- Witness for C4's amended statement in a concrete verbose run. -/
theorem C4_combinations_line_no_over_witness :
    (false = false ∧ 1 ≤ 1) ∧
    ((main_output ⟨85, 1, false⟩ exampleWords (fun _ => 0) 330
        "10^300 years".toList "10^500 years".toList).get? 4 =
      some (combinations_line 330) ∧
    ¬ "over".toList <:+: combinations_line 330) :=
  ⟨⟨rfl, le_refl 1⟩,
    C4_combinations_line_no_over ⟨85, 1, false⟩ exampleWords (fun _ => 0) 330
      "10^300 years".toList "10^500 years".toList rfl (le_refl 1)⟩

set_option maxRecDepth 100000 in
/-- C4 counterexample: concrete verbose run with `num_words = 85`
(7776^85 far exceeds every integer range) and the saturated `u64`
power of ten: no printed line contains `"over"`. -/
theorem C4_counterexample :
    ((main_output ⟨85, 1, false⟩ exampleWords (fun _ => 0) 18446744073709551615
        "10^300 years".toList "10^500 years".toList).all
      fun line => ! decide ("over".toList <:+: line)) = true := by decide

/-- C6: The output mode is decided once from configuration.  With
`num_passwords > 1`, the output is exactly the batch loop's passphrase
lines, `num_passwords` of them; with `num_passwords ≤ 1`, quiet prints
only the passphrase line, otherwise the verbose block is printed; and
in batch or quiet mode every printed line is a passphrase of
`num_words` words. -/
theorem C6_output_mode (args : Arguments) (words : List Str) (r : Nat → Nat)
    (k : Nat) (t1 t2 : Str) :
    (args.num_passwords > 1 →
      main_output args words r k t1 t2 =
        (List.range args.num_passwords).map (fun j =>
          gen_passphrase words (fun i => r (5 * args.num_words * j + i))
            args.num_words) ∧
      (main_output args words r k t1 t2).length = args.num_passwords) ∧
    (args.num_passwords ≤ 1 → args.quiet = true →
      main_output args words r k t1 t2 = [gen_passphrase words r args.num_words]) ∧
    (args.num_passwords ≤ 1 → args.quiet = false →
      main_output args words r k t1 t2 =
        verbose_block (gen_passphrase words r args.num_words) k t1 t2) ∧
    ((∀ w ∈ words, ' ' ∉ w) → 1 ≤ args.num_words →
      (args.num_passwords > 1 ∨ args.quiet = true) →
      ∀ line ∈ main_output args words r k t1 t2,
        (splitOnChar ' ' line).length = args.num_words) := by
  refine ⟨?_, ?_, ?_, ?_⟩
  · intro hb
    simp [main_output, hb]
  · intro hn hq
    have hb : ¬ args.num_passwords > 1 := by omega
    simp [main_output, hb, hq]
  · intro hn hq
    have hb : ¬ args.num_passwords > 1 := by omega
    simp [main_output, hb, hq]
  · intro hw h1 hmode line hl
    by_cases hb : args.num_passwords > 1
    · rw [main_output, if_pos hb] at hl
      obtain ⟨j, _, rfl⟩ := List.mem_map.mp hl
      exact gen_passphrase_split words _ _ h1 hw
    · have hq : args.quiet = true := hmode.resolve_left hb
      rw [main_output, if_neg hb, hq, if_pos rfl] at hl
      rw [List.mem_singleton.mp hl]
      exact gen_passphrase_split words r _ h1 hw

/-- Witness for C6: with `-n 5` and four-word passphrases the output
is exactly 5 lines, each splitting into 4 words. -/
theorem C6_output_mode_witness :
    ((main_output ⟨4, 5, false⟩ [['a'], ['b']] (fun _ => 0) 0 [] []).length = 5) ∧
    (∀ line ∈ main_output ⟨4, 5, false⟩ [['a'], ['b']] (fun _ => 0) 0 [] [],
      (splitOnChar ' ' line).length = 4) :=
  ⟨((C6_output_mode ⟨4, 5, false⟩ [['a'], ['b']] (fun _ => 0) 0 [] []).1
      (by decide)).2,
    (C6_output_mode ⟨4, 5, false⟩ [['a'], ['b']] (fun _ => 0) 0 [] []).2.2.2
      (by decide) (by decide) (Or.inl (by decide))⟩

/-- C9: With a passphrase count of 0 the batch branch is skipped and
the program still prints exactly one passphrase, behaving exactly as
with count 1: the quiet line alone, or the verbose block. -/
theorem C9_zero_count_one_passphrase (args : Arguments) (words : List Str)
    (r : Nat → Nat) (k : Nat) (t1 t2 : Str) (h : args.num_passwords = 0) :
    main_output args words r k t1 t2 =
      main_output { args with num_passwords := 1 } words r k t1 t2 ∧
    (args.quiet = true →
      main_output args words r k t1 t2 = [gen_passphrase words r args.num_words]) ∧
    (args.quiet = false →
      main_output args words r k t1 t2 =
        verbose_block (gen_passphrase words r args.num_words) k t1 t2) := by
  refine ⟨?_, ?_, ?_⟩
  · simp [main_output, h]
  · intro hq; simp [main_output, h, hq]
  · intro hq; simp [main_output, h, hq]

/-- Witness for C9 at a concrete configuration with count 0. -/
theorem C9_zero_count_one_passphrase_witness :
    main_output ⟨4, 0, false⟩ [['a'], ['b']] (fun _ => 0) 0 [] [] =
      main_output ⟨4, 1, false⟩ [['a'], ['b']] (fun _ => 0) 0 [] [] ∧
    main_output ⟨4, 0, false⟩ [['a'], ['b']] (fun _ => 0) 0 [] [] =
      verbose_block (gen_passphrase [['a'], ['b']] (fun _ => 0) 4) 0 [] [] :=
  ⟨(C9_zero_count_one_passphrase ⟨4, 0, false⟩ [['a'], ['b']] (fun _ => 0) 0 [] []
      rfl).1,
    (C9_zero_count_one_passphrase ⟨4, 0, false⟩ [['a'], ['b']] (fun _ => 0) 0 [] []
      rfl).2.2 rfl⟩

/-- C10: When more than one passphrase is requested, the quiet flag has
no effect: with the same draws the printed output is identical. -/
theorem C10_quiet_irrelevant_in_batch (args : Arguments) (words : List Str)
    (r : Nat → Nat) (k : Nat) (t1 t2 : Str) (h : args.num_passwords > 1) :
    main_output { args with quiet := true } words r k t1 t2 =
      main_output { args with quiet := false } words r k t1 t2 := by
  simp [main_output, h]

/-- Witness for C10 at a concrete configuration with count 2. -/
theorem C10_quiet_irrelevant_in_batch_witness :
    main_output ⟨4, 2, true⟩ [['a'], ['b']] (fun _ => 0) 0 [] [] =
      main_output ⟨4, 2, false⟩ [['a'], ['b']] (fun _ => 0) 0 [] [] :=
  C10_quiet_irrelevant_in_batch ⟨4, 2, false⟩ [['a'], ['b']] (fun _ => 0) 0 [] []
    (by decide)

/-- `to_index` of the roll obtained from a 5-byte sequence, in terms of
the die residues of the five bytes. -/
theorem byteSeq_to_index (f : Fin 5 → Fin 256) :
    to_index (roll_dice (byteSeqFun f) 5) =
      ((f 4 : Nat) % 6) + 6 * ((f 3 : Nat) % 6) + 36 * ((f 2 : Nat) % 6) +
        216 * ((f 1 : Nat) % 6) + 1296 * ((f 0 : Nat) % 6) := by
  rw [to_index_roll_dice]
  simp only [byteSeqFun]
  norm_num [Nat.mod_eq_of_lt (Fin.is_lt _)]
  rfl

/-- Counting 5-byte sequences whose bytes all satisfy a predicate. -/
theorem card_pi_subtype (p : Nat → Prop) [DecidablePred p] :
    Fintype.card {f : Fin 5 → Fin 256 // ∀ j, p (f j).val} =
      (Fintype.card {b : Fin 256 // p b.val}) ^ 5 := by
  have e : {f : Fin 5 → Fin 256 // ∀ j, p (f j).val} ≃
      (∀ _ : Fin 5, {b : Fin 256 // p b.val}) :=
    Equiv.subtypePiEquivPi (p := fun (_ : Fin 5) (b : Fin 256) => p b.val)
  rw [Fintype.card_congr e, Fintype.card_pi, Finset.prod_const, Finset.card_univ,
    Fintype.card_fin]

/-- A 5-byte sequence yields index 0 exactly when every byte has die
residue 0 (all dice show 1). -/
theorem to_index_eq_zero_iff (f : Fin 5 → Fin 256) :
    to_index (roll_dice (byteSeqFun f) 5) = 0 ↔
      ∀ j : Fin 5, (f j).val % 6 = 0 := by
  rw [byteSeq_to_index]
  constructor
  · intro h
    have h0 : (f 0).val % 6 = 0 := by omega
    have h1 : (f 1).val % 6 = 0 := by omega
    have h2 : (f 2).val % 6 = 0 := by omega
    have h3 : (f 3).val % 6 = 0 := by omega
    have h4 : (f 4).val % 6 = 0 := by omega
    intro j
    fin_cases j
    · exact h0
    · exact h1
    · exact h2
    · exact h3
    · exact h4
  · intro h
    rw [h 0, h 1, h 2, h 3, h 4]

/-- A 5-byte sequence yields index 7775 exactly when every byte has die
residue 5 (all dice show 6). -/
theorem to_index_eq_max_iff (f : Fin 5 → Fin 256) :
    to_index (roll_dice (byteSeqFun f) 5) = 7775 ↔
      ∀ j : Fin 5, (f j).val % 6 = 5 := by
  rw [byteSeq_to_index]
  constructor
  · intro h
    have hb0 : (f 0).val % 6 < 6 := Nat.mod_lt _ (by omega)
    have hb1 : (f 1).val % 6 < 6 := Nat.mod_lt _ (by omega)
    have hb2 : (f 2).val % 6 < 6 := Nat.mod_lt _ (by omega)
    have hb3 : (f 3).val % 6 < 6 := Nat.mod_lt _ (by omega)
    have hb4 : (f 4).val % 6 < 6 := Nat.mod_lt _ (by omega)
    have h0 : (f 0).val % 6 = 5 := by omega
    have h1 : (f 1).val % 6 = 5 := by omega
    have h2 : (f 2).val % 6 = 5 := by omega
    have h3 : (f 3).val % 6 = 5 := by omega
    have h4 : (f 4).val % 6 = 5 := by omega
    intro j
    fin_cases j
    · exact h0
    · exact h1
    · exact h2
    · exact h3
    · exact h4
  · intro h
    rw [h 0, h 1, h 2, h 3, h 4]

set_option maxRecDepth 10000 in
/-- 43 of the 256 byte values have die residue 0 (die face 1). -/
theorem card_residue_zero :
    Fintype.card {b : Fin 256 // b.val % 6 = 0} = 43 := by decide

set_option maxRecDepth 10000 in
/-- 42 of the 256 byte values have die residue 5 (die face 6). -/
theorem card_residue_five :
    Fintype.card {b : Fin 256 // b.val % 6 = 5} = 42 := by decide

/-- Index 0 has `43^5` byte-sequence preimages. -/
theorem numPreimages_zero : numPreimages 0 = 43 ^ 5 := by
  unfold numPreimages
  rw [Fintype.card_congr (Equiv.subtypeEquivRight to_index_eq_zero_iff)]
  rw [card_pi_subtype (p := fun b => b % 6 = 0), card_residue_zero]

/-- Index 7775 has `42^5` byte-sequence preimages. -/
theorem numPreimages_max : numPreimages 7775 = 42 ^ 5 := by
  unfold numPreimages
  rw [Fintype.card_congr (Equiv.subtypeEquivRight to_index_eq_max_iff)]
  rw [card_pi_subtype (p := fun b => b % 6 = 5), card_residue_five]

/-- C2 (refuted on the code): the byte-to-die mapping composed with
`to_index` is not uniform.  Among the `256^5` raw 5-byte sequences,
index 0 has `43^5 = 147008443` preimages while index 7775 has only
`42^5 = 130691232`, because `256` is not a multiple of 6. -/
theorem C2_biased_preimages :
    numPreimages 0 = 43 ^ 5 ∧ numPreimages 7775 = 42 ^ 5 ∧
    numPreimages 0 ≠ numPreimages 7775 := by
  refine ⟨numPreimages_zero, numPreimages_max, ?_⟩
  rw [numPreimages_zero, numPreimages_max]
  norm_num

end Spiceware
